import Mathlib

/-!
Verification of the text-analyzer repository (frontend `src/frontend/src/utils`,
backend `src/backend/lambda`) against its natural-language specification.

The TypeScript sources are shallowly embedded: strings are Lean `String`s,
JavaScript objects with statically known keys become structures, dynamic
(loosely-typed) JSON values become a small inductive `JVal`, and the
external effects of the backend route (language-model provider, S3 upload,
database insert) are supplied as oracles in an environment record.
JavaScript object-literal lookup is modelled as own-property lookup on the
literal's entries (the prototype chain is not modelled), `toLowerCase` /
`toUpperCase` are modelled character-wise on ASCII (identity elsewhere,
which fixes every character appearing in the embedded tables), and regular
expressions are modelled by an explicit scanner implementing the word
patterns of the source (word-boundary semantics of JS `\b` over the word
characters `[A-Za-z0-9_]`, leftmost alternative first, non-overlapping
global scan).
-/

/-! ## JavaScript string primitives -/

/-- Character-wise model of `String.prototype.toLowerCase` (ASCII range). -/
def jsLowerChar (c : Char) : Char :=
  if 'A' ≤ c ∧ c ≤ 'Z' then Char.ofNat (c.toNat + 32) else c

/-- Character-wise model of `String.prototype.toUpperCase` (ASCII range). -/
def jsUpperChar (c : Char) : Char :=
  if 'a' ≤ c ∧ c ≤ 'z' then Char.ofNat (c.toNat - 32) else c

/-- Model of `toLowerCase` on whole strings. -/
def jsLower (s : String) : String := String.mk (s.toList.map jsLowerChar)

/-- White-space characters removed by `String.prototype.trim`
(ASCII white space and no-break space). -/
def jsIsSpace (c : Char) : Bool :=
  c = ' ' ∨ c = '\t' ∨ c = '\n' ∨ c = '\r' ∨
  c = Char.ofNat 11 ∨ c = Char.ofNat 12 ∨ c = Char.ofNat 0xa0

/-- Model of `String.prototype.trim`. -/
def jsTrim (s : String) : String :=
  String.mk (((s.toList.dropWhile jsIsSpace).reverse.dropWhile jsIsSpace).reverse)

/-- Substring containment on character lists (`hay.includes(sub)`). -/
def containsSub (hay sub : List Char) : Bool :=
  match hay with
  | [] => sub.isEmpty
  | _ :: t => sub.isPrefixOf hay || containsSub t sub

/-- Model of `String.prototype.includes`. -/
def jsIncludes (hay sub : String) : Bool := containsSub hay.toList sub.toList

/-- Model of `String.prototype.endsWith`. -/
def jsEndsWith (s suffixStr : String) : Bool := suffixStr.toList.isSuffixOf s.toList

/-- Model of `String.prototype.startsWith`. -/
def jsStartsWith (s prefixStr : String) : Bool := prefixStr.toList.isPrefixOf s.toList

/-- Model of `String.prototype.slice(n)` (drop the first `n` characters). -/
def jsSliceFrom (s : String) (n : Nat) : String := String.mk (s.toList.drop n)

/-- Model of `s.charAt(0).toUpperCase() + s.slice(1)` from `detectLanguages`. -/
def jsCapitalize (s : String) : String :=
  match s.toList with
  | [] => ""
  | c :: rest => String.mk (jsUpperChar c :: rest)

/-! ## `countryToNationality` table (textProcessing.ts lines 31-110)

The object literal is embedded as an association list in source order;
`Object.entries` iterates the literal's own string keys in insertion order. -/

def countryToNationality : List (String × String) :=
  [("united states", "American"), ("usa", "American"), ("america", "American"),
   ("united kingdom", "British"), ("uk", "British"), ("britain", "British"),
   ("england", "English"), ("scotland", "Scottish"), ("wales", "Welsh"),
   ("france", "French"), ("germany", "German"), ("spain", "Spanish"),
   ("italy", "Italian"), ("canada", "Canadian"), ("australia", "Australian"),
   ("japan", "Japanese"), ("china", "Chinese"), ("india", "Indian"),
   ("brazil", "Brazilian"), ("mexico", "Mexican"), ("russia", "Russian"),
   ("south korea", "South Korean"), ("korea", "Korean"),
   ("netherlands", "Dutch"), ("belgium", "Belgian"), ("switzerland", "Swiss"),
   ("sweden", "Swedish"), ("norway", "Norwegian"), ("denmark", "Danish"),
   ("finland", "Finnish"), ("poland", "Polish"), ("austria", "Austrian"),
   ("greece", "Greek"), ("portugal", "Portuguese"), ("ireland", "Irish"),
   ("new zealand", "New Zealander"), ("singapore", "Singaporean"),
   ("malaysia", "Malaysian"), ("thailand", "Thai"), ("indonesia", "Indonesian"),
   ("philippines", "Filipino"), ("vietnam", "Vietnamese"), ("turkey", "Turkish"),
   ("egypt", "Egyptian"), ("south africa", "South African"),
   ("nigeria", "Nigerian"), ("kenya", "Kenyan"), ("israel", "Israeli"),
   ("saudi arabia", "Saudi"), ("uae", "Emirati"), ("argentina", "Argentinian"),
   ("chile", "Chilean"), ("colombia", "Colombian"), ("peru", "Peruvian"),
   ("venezuela", "Venezuelan"),
   ("肯尼亚", "Kenyan"), ("加拿大", "Canadian"), ("西班牙", "Spanish"),
   ("韩国", "South Korean"), ("阿根廷", "Argentinian"), ("埃及", "Egyptian"),
   ("瑞典", "Swedish"), ("芬兰", "Finnish"), ("泰国", "Thai"),
   ("印度尼西亚", "Indonesian"), ("巴西", "Brazilian"), ("美国", "American"),
   ("中国", "Chinese"), ("日本", "Japanese"), ("法国", "French"),
   ("德国", "German"), ("意大利", "Italian"), ("英国", "British"),
   ("澳大利亚", "Australian"), ("印度", "Indian"), ("俄国", "Russian"),
   ("俄罗斯", "Russian")]

/-- Own-property lookup `countryToNationality[k]` on an association list. -/
def tableGet (k : String) : List (String × String) → Option String
  | [] => none
  | (a, b) :: rest => if k = a then some b else tableGet k rest

/-- First table entry whose key passes the partial-match test of
`extractNationalities` (the `for ... of Object.entries` loop with `break`). -/
def firstPartial (test : String → Bool) : List (String × String) → Option String
  | [] => none
  | (a, b) :: rest => if test a then some b else firstPartial test rest

/-- One iteration of the `for (const country of countries)` loop body of
`extractNationalities` (textProcessing.ts lines 158-180): the nationality the
entry contributes, or `none` when the entry is silently dropped. -/
def matchCountry (country : String) : Option String :=
  let countryTrimmed := jsTrim country
  let countryLower := jsLower countryTrimmed
  match tableGet countryTrimmed countryToNationality with
  | some n => some n
  | none =>
    match tableGet countryLower countryToNationality with
    | some n => some n
    | none =>
      firstPartial
        (fun key =>
          jsIncludes countryLower key || jsIncludes key countryLower ||
          jsIncludes countryTrimmed key || jsIncludes key countryTrimmed)
        countryToNationality

/-- `Set.prototype.add`: JS sets preserve insertion order and ignore
re-insertions, modelled as append-if-absent on a duplicate-free list. -/
def setAdd (acc : List String) (n : String) : List String :=
  if n ∈ acc then acc else acc ++ [n]

/-- `extractNationalities` (textProcessing.ts lines 150-183).  The input is a
list of strings, so the dynamic guards `Array.isArray(countries)` and
`typeof country !== 'string'` of the source are vacuous in the embedding. -/
def extractNationalities (countries : List String) : List String :=
  countries.foldl
    (fun acc country =>
      match matchCountry country with
      | some n => setAdd acc n
      | none => acc)
    []

/-- Loop body as the specification words it (§4.3): trim and lower-case,
one exact lookup in the table, else a substring match in either direction
against table keys with first match winning. -/
def matchCountrySpec (country : String) : Option String :=
  let countryLower := jsLower (jsTrim country)
  match tableGet countryLower countryToNationality with
  | some n => some n
  | none =>
    firstPartial
      (fun key => jsIncludes countryLower key || jsIncludes key countryLower)
      countryToNationality

/-- Nationality extraction as the specification words it. -/
def extractNationalitiesSpec (countries : List String) : List String :=
  countries.foldl
    (fun acc country =>
      match matchCountrySpec country with
      | some n => setAdd acc n
      | none => acc)
    []

/-! ## `languagePatterns` and `detectLanguages` (textProcessing.ts lines 1-148)

The Latin-script patterns are alternations of function words wrapped in JS
word boundaries with the `g` flag; they are modelled by an explicit
non-overlapping left-to-right scanner.  A word boundary holds between two
(optional) characters when exactly one of them is a word character
`[A-Za-z0-9_]`; at each position the alternatives are tried in source order
and the first one whose trailing boundary also holds is consumed. -/

/-- JS regex word character (`\w`). -/
def isWordChar (c : Char) : Bool :=
  ('a' ≤ c && c ≤ 'z') || ('A' ≤ c && c ≤ 'Z') || ('0' ≤ c && c ≤ '9') || c = '_'

/-- Word-character test on an optional character (`none` = outside the text). -/
def isWordCharO : Option Char → Bool
  | none => false
  | some c => isWordChar c

/-- JS word boundary `\b` between adjacent positions. -/
def wordBoundary (a b : Option Char) : Bool := isWordCharO a != isWordCharO b

/-- Does alternative `w` match at the current position?  `prev` is the
character just before the position (for the leading `\b`). -/
def matchAlt (prev : Option Char) (cs : List Char) (w : List Char) : Bool :=
  w.isPrefixOf cs && wordBoundary prev w.head? &&
    wordBoundary w.getLast? (cs.drop w.length).head?

/-- First alternative (in source order) matching at the current position. -/
def tryAlts (alts : List (List Char)) (prev : Option Char) (cs : List Char) :
    Option (List Char) :=
  alts.find? (matchAlt prev cs)

/-- Structural worker for the pattern scan (recursion on fuel keeps the
definition kernel-reducible). -/
def countScanAux (alts : List (List Char)) :
    Nat → Option Char → List Char → Nat
  | 0, _, _ => 0
  | _ + 1, _, [] => 0
  | fuel + 1, prev, c :: rest =>
    match tryAlts alts prev (c :: rest) with
    | some w => 1 + countScanAux alts fuel w.getLast? (rest.drop (w.length - 1))
    | none => countScanAux alts fuel (some c) rest

/-- Number of matches of the alternation pattern over the text: the scan
advances one character on failure and past the match on success; the fuel
argument of the worker starts at the text length, which suffices because
every step strictly shortens the text. -/
def countScan (alts : List (List Char)) (prev : Option Char)
    (cs : List Char) : Nat :=
  countScanAux alts cs.length prev cs

/-- Number of characters inside one code-point range (the CJK/Arabic
character-class patterns with the `g` flag). -/
def countRange (lo hi : Nat) (cs : List Char) : Nat :=
  (cs.filter (fun c => lo ≤ c.toNat && c.toNat ≤ hi)).length

def englishWords1 : List (List Char) :=
  (["the", "and", "or", "but", "in", "on", "at", "to", "for", "of", "with",
    "by", "from", "up", "about", "into", "through", "during", "before",
    "after"]).map String.toList

def englishWords2 : List (List Char) :=
  (["is", "are", "was", "were", "been", "being", "have", "has", "had", "do",
    "does", "did"]).map String.toList

def spanishWords1 : List (List Char) :=
  (["el", "la", "los", "las", "un", "una", "y", "o", "pero", "en", "de",
    "con", "para", "por"]).map String.toList

def spanishWords2 : List (List Char) :=
  (["es", "son", "está", "están", "fue", "fueron", "ser", "estar", "haber",
    "hacer"]).map String.toList

def frenchWords1 : List (List Char) :=
  (["le", "la", "les", "un", "une", "et", "ou", "mais", "dans", "de",
    "avec", "pour", "par"]).map String.toList

def frenchWords2 : List (List Char) :=
  (["est", "sont", "était", "étaient", "être", "avoir", "faire"]).map
    String.toList

def germanWords1 : List (List Char) :=
  (["der", "die", "das", "ein", "eine", "und", "oder", "aber", "in", "auf",
    "mit", "für", "von"]).map String.toList

def germanWords2 : List (List Char) :=
  (["ist", "sind", "war", "waren", "sein", "haben", "werden"]).map
    String.toList

/-- Score of the hiragana/katakana character class `[぀-ゟ゠-ヿ]`. -/
def countJapaneseChars (cs : List Char) : Nat :=
  (cs.filter (fun c =>
    (0x3040 ≤ c.toNat && c.toNat ≤ 0x309f) ||
    (0x30a0 ≤ c.toNat && c.toNat ≤ 0x30ff))).length

/-- Per-language total match count against the lower-cased text, in the
insertion order of the `languagePatterns` object literal; each language's
patterns are scanned independently and their counts summed. -/
def languageScoresAll (textLower : List Char) : List (String × Nat) :=
  [("english", countScan englishWords1 none textLower +
      countScan englishWords2 none textLower),
   ("spanish", countScan spanishWords1 none textLower +
      countScan spanishWords2 none textLower),
   ("french", countScan frenchWords1 none textLower +
      countScan frenchWords2 none textLower),
   ("german", countScan germanWords1 none textLower +
      countScan germanWords2 none textLower),
   ("chinese", countRange 0x4e00 0x9fa5 textLower),
   ("japanese", countJapaneseChars textLower),
   ("arabic", countRange 0x600 0x6ff textLower)]

/-- Stable insertion into a descending list (ties keep existing elements in
place), matching the stable JS `Array.prototype.sort` with `(a, b) => b - a`. -/
def insertDesc (x : String × Nat) : List (String × Nat) → List (String × Nat)
  | [] => [x]
  | y :: ys => if x.2 ≥ y.2 then x :: y :: ys else y :: insertDesc x ys

/-- Stable descending sort by score. -/
def sortDesc : List (String × Nat) → List (String × Nat)
  | [] => []
  | x :: xs => insertDesc x (sortDesc xs)

/-- `detectLanguages` (textProcessing.ts lines 112-148): build the score map
(only strictly positive scores are recorded), sort descending, keep scores
strictly above the significance threshold 5, capitalize the top 3, default
to `["English"]` when nothing qualifies. -/
def detectLanguages (text : String) : List String :=
  let textLower := (jsLower text).toList
  let languageScores := (languageScoresAll textLower).filter (fun p => p.2 > 0)
  let sortedLanguages := (sortDesc languageScores).filter (fun p => p.2 > 5)
  let detected := (sortedLanguages.take 3).map (fun p => jsCapitalize p.1)
  if detected.isEmpty then ["English"] else detected

/-- Language detection as the specification words it (§4.3): keep the
languages whose match count exceeds the threshold, sort those descending by
count, return up to the top 3 capitalized, else default to `["English"]`. -/
def detectLanguagesSpec (text : String) : List String :=
  let textLower := (jsLower text).toList
  let kept := sortDesc ((languageScoresAll textLower).filter (fun p => p.2 > 5))
  let detected := (kept.take 3).map (fun p => jsCapitalize p.1)
  if detected.isEmpty then ["English"] else detected

/-! ## Loosely-typed API payloads and `mapApiResponseToPRD`
(textProcessing.ts lines 186-251) -/

/-- A loosely-typed JSON field value: a string, an array of strings, or any
other value of which only JS truthiness matters to the code under embedding. -/
inductive JVal where
  | jstr (s : String)
  | jarr (l : List String)
  | jother (truthy : Bool)
deriving DecidableEq, Repr

/-- `Array.isArray` guard: the payload of an array-valued field.  Arrays are
always truthy in JS, so `x && Array.isArray(x)` holds exactly on arrays. -/
def asArray : Option JVal → Option (List String)
  | some (.jarr l) => some l
  | _ => none

/-- The parameter type of `mapApiResponseToPRD`: `article_summary` is
declared `string | string[]`, `summary` is a `string`, the remaining fields
are loosely typed. -/
structure ApiResponse where
  summary : Option String
  article_summary : Option (Sum String (List String))
  countries : Option JVal
  nationalities : Option JVal
  organizations : Option JVal
  people : Option JVal
  language : Option JVal
  languages : Option JVal
deriving DecidableEq, Repr

/-- The canonical client-facing shape `PRDAnalysisResponse`. -/
structure PRDAnalysisResponse where
  article_summary : String
  nationalities : List String
  organizations : List String
  people : List String
  languages : List String
deriving DecidableEq, Repr

/-- `mapApiResponseToPRD` (textProcessing.ts lines 194-251). -/
def mapApiResponseToPRD (apiResponse : ApiResponse)
    (originalText : Option String) : PRDAnalysisResponse :=
  let summary : String :=
    match apiResponse.article_summary with
    | some (Sum.inr l) => String.intercalate " " l
    | some (Sum.inl s) =>
      if s ≠ "" then s
      else match apiResponse.summary with
        | some t => if t ≠ "" then t else ""
        | none => ""
    | none =>
      match apiResponse.summary with
      | some t => if t ≠ "" then t else ""
      | none => ""
  let countries : List String :=
    match asArray apiResponse.countries with
    | some l => l
    | none =>
      match asArray apiResponse.nationalities with
      | some l => l
      | none => []
  let organizations := (asArray apiResponse.organizations).getD []
  let people := (asArray apiResponse.people).getD []
  let languages : List String :=
    match asArray apiResponse.languages with
    | some l => l
    | none =>
      match asArray apiResponse.language with
      | some l => l
      | none =>
        match originalText with
        | some t => if t ≠ "" then detectLanguages t else ["English"]
        | none => ["English"]
  { article_summary := summary
    nationalities := extractNationalities countries
    organizations := organizations
    people := people
    languages := languages }

/-! ## Backend `/analyze` route (routes/analyze.ts, registered without any
middleware in lambda/index.ts) -/

/-- A provider object that passed `generateObject`'s validation against
`outputSchema`: the four required fields are arrays, `language` is optional. -/
structure AnalysisObject where
  article_summary : List String
  nationalities : List String
  organizations : List String
  people : List String
  language : Option (List String)
deriving DecidableEq, Repr

/-- An uploaded file: its declared name, byte size, MIME type, the UTF-8
decoding of its bytes, and the text `mammoth.extractRawText` would return
for it (the latter two are oracles replacing the raw byte buffer). -/
structure UploadedFile where
  name : String
  size : Nat
  mimeType : String
  utf8Text : String
  docxText : String
deriving DecidableEq, Repr

/-- A `POST /analyze` request as the handler observes it: the Authorization
header, whether the content type is multipart, the form fields, and the
JSON body's `text` (for the non-multipart branch, `none` when missing). -/
structure AnalyzeRequest where
  authorization : Option String
  multipart : Bool
  textField : Option String
  file : Option UploadedFile
  jsonText : Option String
deriving Repr

/-- External collaborators of the route: the provider call (`none` models a
provider/schema failure), S3 and database availability, the bucket name and
the generated `uuidv4` value. -/
structure AnalyzeEnv where
  provider : String → Option AnalysisObject
  s3Ok : Bool
  dbOk : Bool
  fileBucket : String
  freshId : String

/-- Responses the handler can produce. -/
inductive HttpResponse where
  | badRequest (msg : String)
  | unauthorized (msg : String)
  | serverError (msg : String)
  | okJson (o : AnalysisObject)
deriving DecidableEq, Repr

/-- Outcome of the body-parsing phase (the first `try` block of the
handler): an early error response or the assembled article text, in both
cases together with the S3 reference and whether extraction ran. -/
inductive ParsedBody where
  | fail (r : HttpResponse) (uploadedFileUrl : Option String) (extracted : Bool)
  | done (articleText : String) (uploadedFileUrl : Option String) (extracted : Bool)
deriving DecidableEq, Repr

/-- `file.name.split('.').pop() || 'txt'`.  This is evaluated only after the
extension check, where the name ends in `.txt` or `.docx`, and on such names
the last `.`-separated component is exactly that extension. -/
def fileExt (name : String) : String :=
  if jsEndsWith name ".txt" then "txt" else "docx"

/-- Body parsing and text extraction (analyze.ts lines 59-136): multipart
requests contribute the trimmed non-empty `text` field and the extracted
file text joined by a blank line; unsupported extensions fail before the
best-effort S3 upload; JSON requests use `body.text ?? ''`. -/
def parseAnalyzeBody (env : AnalyzeEnv) (req : AnalyzeRequest) : ParsedBody :=
  if req.multipart then
    let parts : List String :=
      match req.textField with
      | some t => if jsTrim t ≠ "" then [jsTrim t] else []
      | none => []
    match req.file with
    | some file =>
      let finish : String → ParsedBody := fun extractedText =>
        let uploadedFileUrl : Option String :=
          if env.s3Ok then
            some ("s3://" ++ env.fileBucket ++ "/uploads/" ++ env.freshId ++
              "." ++ fileExt file.name)
          else none
        let articleText := String.intercalate "\n\n" (parts ++ [extractedText])
        if articleText = "" then
          .fail (.badRequest "No article text provided") uploadedFileUrl true
        else .done articleText uploadedFileUrl true
      if jsEndsWith file.name ".txt" then finish file.utf8Text
      else if jsEndsWith file.name ".docx" then finish file.docxText
      else
        .fail (.badRequest "Unsupported file type. Only .txt and .docx are accepted.")
          none false
    | none =>
      let articleText := String.intercalate "\n\n" parts
      if articleText = "" then
        .fail (.badRequest "No article text provided") none false
      else .done articleText none false
  else
    let articleText := (req.jsonText).getD ""
    if articleText = "" then .fail (.badRequest "No article text provided") none false
    else .done articleText none false

/-- What one invocation of the handler did. -/
structure AnalyzeTrace where
  response : HttpResponse
  providerCalled : Bool
  extractionPerformed : Bool
  uploadedFileUrl : Option String
  dbInsertAttempted : Bool
  dbErrorLogged : Bool
deriving DecidableEq, Repr

/-- The `POST /analyze` handler as registered in index.ts: body parsing,
then the provider call (failure → 500), then the article-log insert whose
failure is only logged, then `c.json(result.object)`.  No middleware guards
the route, so the Authorization header is never consulted. -/
def analyzeRoute (env : AnalyzeEnv) (req : AnalyzeRequest) : AnalyzeTrace :=
  match parseAnalyzeBody env req with
  | .fail r url ext =>
    { response := r, providerCalled := false, extractionPerformed := ext,
      uploadedFileUrl := url, dbInsertAttempted := false, dbErrorLogged := false }
  | .done articleText url ext =>
    match env.provider articleText with
    | none =>
      { response := .serverError "Failed to analyze article",
        providerCalled := true, extractionPerformed := ext,
        uploadedFileUrl := url, dbInsertAttempted := false,
        dbErrorLogged := false }
    | some obj =>
      { response := .okJson obj, providerCalled := true,
        extractionPerformed := ext, uploadedFileUrl := url,
        dbInsertAttempted := true, dbErrorLogged := !env.dbOk }

/-! ## Auth middleware (lambda/auth.ts) -/

/-- A `sessions` row as the middleware reads it (`expires_at` may be NULL). -/
structure SessionRow where
  expires_at : Option Int
deriving DecidableEq, Repr

/-- Collaborators of the middleware: the one-way token hash, the session
lookup by `access_token` hash, and the current time. -/
structure AuthEnv where
  hashToken : String → String
  findSession : String → Option SessionRow
  now : Int

/-- Outcome of the middleware: 401 `Unauthorized`, 401 `Session expired`,
or `next()` (the guarded handler runs). -/
inductive AuthOutcome where
  | unauthorized
  | sessionExpired
  | proceed
deriving DecidableEq, Repr

/-- The `auth` middleware (auth.ts lines 8-38): require a `Bearer ` header,
hash the token, look the hash up in `sessions`, reject expired sessions. -/
def auth (env : AuthEnv) (authorization : Option String) : AuthOutcome :=
  match authorization with
  | none => .unauthorized
  | some header =>
    if !(jsStartsWith header "Bearer ") then .unauthorized
    else
      let token := jsSliceFrom header 7
      let tokenHash := env.hashToken token
      match env.findSession tokenHash with
      | none => .unauthorized
      | some session =>
        match session.expires_at with
        | some e => if e < env.now then .sessionExpired else .proceed
        | none => .proceed

/-! ## Frontend file validation and selection
(fileValidation.ts, TextAnalyzer.tsx) -/

def MAX_FILE_SIZE : Nat := 10 * 1024 * 1024

def ALLOWED_FILE_TYPES : List String :=
  ["text/plain",
   "application/vnd.openxmlformats-officedocument.wordprocessingml.document",
   "application/pdf"]

structure FileValidationResult where
  isValid : Bool
  error : Option String
deriving DecidableEq, Repr

/-- `validateFile` (fileValidation.ts lines 14-30). -/
def validateFile (file : UploadedFile) : FileValidationResult :=
  if file.size > MAX_FILE_SIZE then
    { isValid := false, error := some "File size exceeds 10MB limit" }
  else if !(ALLOWED_FILE_TYPES.contains file.mimeType) then
    { isValid := false,
      error := some ("Unsupported file type: " ++ file.mimeType ++
        ". Supported types: .txt, .docx, .pdf") }
  else { isValid := true, error := none }

/-- The component state touched by file selection in TextAnalyzer.tsx. -/
structure UIState where
  text : String
  selectedFile : Option UploadedFile
deriving DecidableEq, Repr

/-- `handleFileSelect` (TextAnalyzer.tsx): an invalid file leaves the state
unchanged (only a toast is shown); a valid file becomes the selected file
and clears the text input. -/
def handleFileSelect (st : UIState) (file : Option UploadedFile) : UIState :=
  match file with
  | none => st
  | some f =>
    if (validateFile f).isValid then { text := "", selectedFile := some f }
    else st

/-- The environment-independent part of a parse outcome: the early
response or the assembled article text, plus the extraction flag. -/
def ParsedBody.core : ParsedBody → (Sum HttpResponse String) × Bool
  | .fail r _ e => (Sum.inl r, e)
  | .done t _ e => (Sum.inr t, e)

/-- The S3 reference carried by a parse outcome. -/
def ParsedBody.url : ParsedBody → Option String
  | .fail _ u _ => u
  | .done _ u _ => u

/-! ## Concrete fixtures used to evaluate the models at specific inputs -/

/-- A provider object with all five fields, used as a generic success. -/
def objDemo : AnalysisObject :=
  { article_summary := ["A short summary."], nationalities := ["French"],
    organizations := [], people := ["Jean Dupont"], language := some ["English"] }

/-- A schema-valid provider object in which the optional `language`
field is omitted. -/
def objNoLang : AnalysisObject :=
  { article_summary := ["A short summary."], nationalities := [],
    organizations := [], people := [], language := none }

/-- Environment whose provider always succeeds with `objDemo`. -/
def envDemo : AnalyzeEnv :=
  { provider := fun _ => some objDemo, s3Ok := true, dbOk := true,
    fileBucket := "bucket", freshId := "id-1" }

/-- Environment whose provider succeeds but omits `language`. -/
def envNoLang : AnalyzeEnv :=
  { provider := fun _ => some objNoLang, s3Ok := true, dbOk := true,
    fileBucket := "bucket", freshId := "id-1" }

/-- A JSON-body request carrying text and no Authorization header. -/
def reqJsonHello : AnalyzeRequest :=
  { authorization := none, multipart := false, textField := none,
    file := none, jsonText := some "hello" }

/-- A 20MB plain-text upload. -/
def file20MB : UploadedFile :=
  { name := "big.txt", size := 20 * 1024 * 1024, mimeType := "text/plain",
    utf8Text := "twenty megabytes of text", docxText := "" }

/-- An authenticated multipart request carrying the 20MB file. -/
def req20MB : AnalyzeRequest :=
  { authorization := some "Bearer valid-token", multipart := true,
    textField := none, file := some file20MB, jsonText := none }

/-- An upload with an extension that is neither `.txt` nor `.docx`. -/
def filePdf : UploadedFile :=
  { name := "doc.pdf", size := 100, mimeType := "application/pdf",
    utf8Text := "x", docxText := "y" }

/-- An authenticated multipart request carrying the PDF. -/
def reqPdf : AnalyzeRequest :=
  { authorization := some "Bearer valid-token", multipart := true,
    textField := none, file := some filePdf, jsonText := none }

/-- An auth environment in which the bearer token `tok` hashes to a stored
session row whose `expires_at` (100) lies before `now` (200). -/
def authEnvExpired : AuthEnv :=
  { hashToken := fun t => "hash:" ++ t,
    findSession := fun h =>
      if h = "hash:tok" then some { expires_at := some 100 } else none,
    now := 200 }

/-- An API response with every field missing. -/
def emptyApiResponse : ApiResponse :=
  { summary := none, article_summary := none, countries := none,
    nationalities := none, organizations := none, people := none,
    language := none, languages := none }

/-- A UI state with a typed draft and no selected file. -/
def uiStateDemo : UIState := { text := "draft", selectedFile := none }

/-! ## Helper lemmas: strings, containment, lower-casing -/

lemma toList_mk (cs : List Char) : (String.mk cs).toList = cs := rfl

lemma mk_toList (s : String) : String.mk s.toList = s := rfl

lemma jsLower_toList (s : String) : (jsLower s).toList = s.toList.map jsLowerChar := rfl

lemma map_fixed_iff (f : Char → Char) (l : List Char) :
    l.map f = l ↔ ∀ c ∈ l, f c = c := by
  induction l with
  | nil => simp
  | cons c t ih => simp [ih]

lemma containsSub_iff_within (hay sub : List Char) :
    containsSub hay sub = true ↔ List.IsInfix sub hay := by
  induction hay with
  | nil => simp [containsSub, List.isEmpty_iff]
  | cons h t ih =>
    simp only [containsSub, Bool.or_eq_true, List.isPrefixOf_iff_prefix, ih]
    exact (List.infix_cons_iff).symm

lemma jsIncludes_iff (hay sub : String) :
    jsIncludes hay sub = true ↔ List.IsInfix sub.toList hay.toList :=
  containsSub_iff_within hay.toList sub.toList

lemma jsLower_key_toList {k : String} (hk : jsLower k = k) :
    k.toList.map jsLowerChar = k.toList := by
  have := congrArg String.toList hk
  rwa [jsLower_toList] at this

lemma jsIncludes_lower_left {t k : String} (hk : jsLower k = k)
    (h : jsIncludes t k = true) : jsIncludes (jsLower t) k = true := by
  rw [jsIncludes_iff] at h ⊢
  rw [jsLower_toList]
  have := h.map jsLowerChar
  rwa [jsLower_key_toList hk] at this

lemma jsLower_eq_self_of_within {t k : String} (hk : jsLower k = k)
    (h : List.IsInfix t.toList k.toList) : jsLower t = t := by
  have hfix : ∀ c ∈ k.toList, jsLowerChar c = c :=
    (map_fixed_iff jsLowerChar k.toList).mp (jsLower_key_toList hk)
  have : t.toList.map jsLowerChar = t.toList :=
    (map_fixed_iff jsLowerChar t.toList).mpr fun c hc => hfix c (h.subset hc)
  show String.mk (t.toList.map jsLowerChar) = t
  rw [this, mk_toList]

lemma jsIncludes_lower_right {t k : String} (hk : jsLower k = k)
    (h : jsIncludes k t = true) : jsIncludes k (jsLower t) = true := by
  have hinf : List.IsInfix t.toList k.toList := (jsIncludes_iff k t).mp h
  rw [jsLower_eq_self_of_within hk hinf]
  exact h

/-! ## Helper lemmas: the nationality table and `extractNationalities` -/

/-- Every key of the table is fixed by lower-casing (English keys are
already lower-case ASCII, Chinese keys contain no ASCII letters). -/
lemma countryToNationality_keys_lower :
    ∀ p ∈ countryToNationality, jsLower p.1 = p.1 := by decide

lemma tableGet_mem {k n : String} {l : List (String × String)}
    (h : tableGet k l = some n) : ∃ p ∈ l, p.1 = k ∧ p.2 = n := by
  induction l with
  | nil => simp [tableGet] at h
  | cons p rest ih =>
    rcases p with ⟨a, b⟩
    by_cases hk : k = a
    · refine ⟨(a, b), List.mem_cons_self _ _, hk.symm, ?_⟩
      simp [tableGet, hk] at h
      exact h
    · simp only [tableGet, if_neg hk] at h
      obtain ⟨p, hp, h1, h2⟩ := ih h
      exact ⟨p, List.mem_cons_of_mem _ hp, h1, h2⟩

lemma firstPartial_congr {t1 t2 : String → Bool} {l : List (String × String)}
    (h : ∀ p ∈ l, t1 p.1 = t2 p.1) : firstPartial t1 l = firstPartial t2 l := by
  induction l with
  | nil => rfl
  | cons p rest ih =>
    rcases p with ⟨a, b⟩
    have ha := h (a, b) (List.mem_cons_self _ _)
    simp only [firstPartial] at ha ⊢
    rw [ha]
    by_cases hc : t2 a = true
    · simp [hc]
    · simp only [Bool.not_eq_true] at hc
      simp only [hc, if_neg]
      exact ih fun p hp => h p (List.mem_cons_of_mem _ hp)

/-- On a lower-case-fixed key, the four-way partial-match test of the code
collapses to the two-way test of the specification. -/
lemma partial_cond_eq {t k : String} (hk : jsLower k = k) :
    (jsIncludes (jsLower t) k || jsIncludes k (jsLower t) ||
      jsIncludes t k || jsIncludes k t)
    = (jsIncludes (jsLower t) k || jsIncludes k (jsLower t)) := by
  cases h1 : jsIncludes t k with
  | true => simp [jsIncludes_lower_left hk h1]
  | false =>
    cases h2 : jsIncludes k t with
    | true => simp [jsIncludes_lower_right hk h2]
    | false => simp [h1, h2]

lemma matchCountry_eq_spec (c : String) : matchCountry c = matchCountrySpec c := by
  simp only [matchCountry, matchCountrySpec]
  cases h : tableGet (jsTrim c) countryToNationality with
  | some n =>
    obtain ⟨p, hp, hpk, hpv⟩ := tableGet_mem h
    have hfix : jsLower (jsTrim c) = jsTrim c := by
      rw [← hpk]
      exact countryToNationality_keys_lower p hp
    rw [hfix]
    simp [h]
  | none =>
    simp only [h]
    cases h2 : tableGet (jsLower (jsTrim c)) countryToNationality with
    | some n => simp [h2]
    | none =>
      simp only [h2]
      exact firstPartial_congr fun p hp =>
        partial_cond_eq (countryToNationality_keys_lower p hp)

lemma setAdd_nodup {acc : List String} {n : String} (h : acc.Nodup) :
    (setAdd acc n).Nodup := by
  by_cases hmem : n ∈ acc
  · simpa [setAdd, hmem] using h
  · simp [setAdd, hmem, List.nodup_append, h]

lemma mem_setAdd {acc : List String} {m n : String} :
    n ∈ setAdd acc m ↔ n ∈ acc ∨ n = m := by
  by_cases hmem : m ∈ acc
  · simp only [setAdd, if_pos hmem]
    constructor
    · exact Or.inl
    · rintro (h | rfl)
      · exact h
      · exact hmem
  · simp [setAdd, hmem]

lemma mem_extract_foldl (cs : List String) (acc : List String) (n : String) :
    (n ∈ cs.foldl (fun acc country =>
        match matchCountry country with
        | some m => setAdd acc m
        | none => acc) acc) ↔
      n ∈ acc ∨ ∃ c ∈ cs, matchCountry c = some n := by
  induction cs generalizing acc with
  | nil => simp
  | cons c cs ih =>
    simp only [List.foldl_cons, ih]
    cases h : matchCountry c with
    | some m =>
      simp only [h, mem_setAdd]
      constructor
      · rintro ((hn | rfl) | ⟨c', hc', hm⟩)
        · exact Or.inl hn
        · exact Or.inr ⟨c, List.mem_cons_self _ _, h⟩
        · exact Or.inr ⟨c', List.mem_cons_of_mem _ hc', hm⟩
      · rintro (hn | ⟨c', hc', hm⟩)
        · exact Or.inl (Or.inl hn)
        · rcases List.mem_cons.mp hc' with rfl | hc''
          · rw [h] at hm
            exact Or.inl (Or.inr (Option.some_injective _ hm).symm)
          · exact Or.inr ⟨c', hc'', hm⟩
    | none =>
      simp only [h]
      constructor
      · rintro (hn | ⟨c', hc', hm⟩)
        · exact Or.inl hn
        · exact Or.inr ⟨c', List.mem_cons_of_mem _ hc', hm⟩
      · rintro (hn | ⟨c', hc', hm⟩)
        · exact Or.inl hn
        · rcases List.mem_cons.mp hc' with rfl | hc''
          · rw [h] at hm
            cases hm
          · exact Or.inr ⟨c', hc'', hm⟩

lemma mem_extractNationalities {cs : List String} {n : String} :
    n ∈ extractNationalities cs ↔ ∃ c ∈ cs, matchCountry c = some n := by
  simpa [extractNationalities] using mem_extract_foldl cs [] n

lemma nodup_extract_foldl (cs : List String) :
    ∀ acc : List String, acc.Nodup →
      (cs.foldl (fun acc country =>
        match matchCountry country with
        | some m => setAdd acc m
        | none => acc) acc).Nodup := by
  induction cs with
  | nil => intro acc h; simpa
  | cons c cs ih =>
    intro acc h
    simp only [List.foldl_cons]
    apply ih
    cases hm : matchCountry c with
    | none => simpa [hm]
    | some m =>
      simp only [hm]
      exact setAdd_nodup h

lemma extractNationalities_nodup (cs : List String) :
    (extractNationalities cs).Nodup :=
  nodup_extract_foldl cs [] List.nodup_nil

lemma extractNationalities_eq_spec_fun (cs : List String) :
    extractNationalities cs = extractNationalitiesSpec cs := by
  unfold extractNationalities extractNationalitiesSpec
  congr 1
  funext acc c
  rw [matchCountry_eq_spec]

/-! ## Helper lemmas: the stable descending sort of `detectLanguages` -/

lemma mem_insertDesc {x y : String × Nat} {l : List (String × Nat)} :
    y ∈ insertDesc x l ↔ y = x ∨ y ∈ l := by
  induction l with
  | nil => simp [insertDesc]
  | cons z zs ih =>
    simp only [insertDesc]
    split
    · simp [List.mem_cons]
    · simp only [List.mem_cons, ih]
      tauto

lemma mem_sortDesc {y : String × Nat} {l : List (String × Nat)} :
    y ∈ sortDesc l ↔ y ∈ l := by
  induction l with
  | nil => simp [sortDesc]
  | cons x xs ih => simp [sortDesc, mem_insertDesc, ih]

lemma pairwise_insertDesc {x : String × Nat} {l : List (String × Nat)}
    (h : l.Pairwise (fun a b => b.2 ≤ a.2)) :
    (insertDesc x l).Pairwise (fun a b => b.2 ≤ a.2) := by
  induction l with
  | nil => simp [insertDesc]
  | cons y ys ih =>
    rcases List.pairwise_cons.mp h with ⟨hy, hys⟩
    simp only [insertDesc]
    split
    · rename_i hxy
      refine List.pairwise_cons.mpr ⟨?_, h⟩
      intro z hz
      rcases List.mem_cons.mp hz with rfl | hz'
      · exact hxy
      · exact le_trans (hy z hz') hxy
    · rename_i hxy
      refine List.pairwise_cons.mpr ⟨?_, ih hys⟩
      intro z hz
      rcases mem_insertDesc.mp hz with rfl | hz'
      · omega
      · exact hy z hz'

lemma sortDesc_pairwise (l : List (String × Nat)) :
    (sortDesc l).Pairwise (fun a b => b.2 ≤ a.2) := by
  induction l with
  | nil => simp [sortDesc]
  | cons x xs ih => exact pairwise_insertDesc ih

lemma insertDesc_eq_cons {x : String × Nat} {l : List (String × Nat)}
    (h : ∀ z ∈ l, z.2 ≤ x.2) : insertDesc x l = x :: l := by
  cases l with
  | nil => rfl
  | cons y ys => simp [insertDesc, h y (List.mem_cons_self _ _)]

lemma filter_insertDesc (p : String × Nat → Bool) (x : String × Nat)
    (l : List (String × Nat)) (hl : l.Pairwise (fun a b => b.2 ≤ a.2)) :
    (insertDesc x l).filter p =
      if p x then insertDesc x (l.filter p) else l.filter p := by
  induction l with
  | nil =>
    by_cases hpx : p x <;> simp [insertDesc, List.filter_cons, hpx]
  | cons y ys ih =>
    rcases List.pairwise_cons.mp hl with ⟨hy, hys⟩
    simp only [insertDesc]
    by_cases hxy : x.2 ≥ y.2
    · rw [if_pos hxy]
      by_cases hpx : p x
      · by_cases hpy : p y
        · simp [List.filter_cons, hpx, hpy, insertDesc, hxy]
        · have hcons : insertDesc x (ys.filter p) = x :: ys.filter p :=
            insertDesc_eq_cons fun z hz =>
              le_trans (hy z (List.mem_of_mem_filter hz)) hxy
          simp [List.filter_cons, hpx, hpy, hcons]
      · by_cases hpy : p y <;> simp [List.filter_cons, hpx, hpy]
    · rw [if_neg hxy]
      by_cases hpy : p y
      · simp only [List.filter_cons, hpy, if_pos]
        rw [ih hys]
        by_cases hpx : p x
        · rw [if_pos hpx, if_pos hpx]
          have : ¬ x.2 ≥ y.2 := hxy
          simp [List.filter_cons, hpy, insertDesc, this]
        · rw [if_neg hpx, if_neg hpx]
      · simp only [List.filter_cons, hpy, if_neg]
        rw [ih hys]
        simp [List.filter_cons, hpy]

lemma filter_sortDesc (p : String × Nat → Bool) (l : List (String × Nat)) :
    (sortDesc l).filter p = sortDesc (l.filter p) := by
  induction l with
  | nil => rfl
  | cons x xs ih =>
    simp only [sortDesc]
    rw [filter_insertDesc p x (sortDesc xs) (sortDesc_pairwise xs), ih]
    by_cases hpx : p x
    · rw [if_pos hpx, List.filter_cons, if_pos hpx]
      rfl
    · rw [if_neg hpx, List.filter_cons, if_neg hpx]

lemma filter_gt5_gt0 (l : List (String × Nat)) :
    (l.filter fun p => p.2 > 0).filter (fun p => p.2 > 5) =
      l.filter fun p => p.2 > 5 := by
  induction l with
  | nil => rfl
  | cons x xs ih =>
    by_cases h5 : x.2 > 5
    · have h0 : x.2 > 0 := by omega
      simp [List.filter_cons, h5, h0, ih]
    · by_cases h0 : x.2 > 0 <;> simp [List.filter_cons, h5, h0, ih]

lemma detectLanguages_eq_spec (s : String) :
    detectLanguages s = detectLanguagesSpec s := by
  simp only [detectLanguages, detectLanguagesSpec]
  rw [filter_sortDesc, filter_gt5_gt0]

lemma detectLanguages_default {s : String}
    (h : ∀ p ∈ languageScoresAll ((jsLower s).toList), p.2 ≤ 5) :
    detectLanguages s = ["English"] := by
  simp only [detectLanguages]
  have hnil :
      ((sortDesc ((languageScoresAll ((jsLower s).toList)).filter
        fun p => p.2 > 0)).filter fun p => p.2 > 5) = [] := by
    rw [List.filter_eq_nil_iff]
    intro a ha
    have ha' : a ∈ languageScoresAll ((jsLower s).toList) :=
      List.mem_of_mem_filter (mem_sortDesc.mp ha)
    have := h a ha'
    simp only [decide_eq_true_eq]
    omega
  rw [hnil]
  rfl

lemma detectLanguages_length_le (s : String) :
    (detectLanguages s).length ≤ 3 := by
  simp only [detectLanguages]
  split
  · simp
  · simp only [List.length_map]
    exact le_trans (List.length_take_le 3 _) (le_refl 3)

/-! ## Claim theorems: nationality extraction and language detection -/

lemma extract_foldl_filterMap (cs : List String) :
    ∀ acc : List String,
      cs.foldl (fun acc country =>
        match matchCountry country with
        | some m => setAdd acc m
        | none => acc) acc
      = (cs.filterMap matchCountry).foldl setAdd acc := by
  induction cs with
  | nil => intro acc; rfl
  | cons c cs ih =>
    intro acc
    cases h : matchCountry c with
    | none => simp [List.filterMap_cons, h, ih]
    | some m => simp [List.filterMap_cons, h, ih]

/-- C6: `extractNationalities` computes exactly what the specification
describes: each entry is trimmed and lower-cased and looked up exactly in
the static table, with a first-match-wins substring fallback in either
direction, unmatched entries dropped (the code's additional exact lookup
and substring tests on the *un*-lowered trimmed string are redundant
because every table key is fixed by lower-casing); the result is the
duplicate-free list of matched nationalities in first-seen order. -/
theorem extractNationalities_matches_spec :
    ∀ countries : List String,
      extractNationalities countries = extractNationalitiesSpec countries ∧
      extractNationalities countries =
        (countries.filterMap matchCountrySpec).foldl setAdd [] ∧
      (extractNationalities countries).Nodup := by
  intro countries
  refine ⟨extractNationalities_eq_spec_fun countries, ?_,
    extractNationalities_nodup countries⟩
  have h1 := extract_foldl_filterMap countries []
  have h2 : countries.filterMap matchCountry =
      countries.filterMap matchCountrySpec := by
    apply List.filterMap_congr
    intro c _
    exact matchCountry_eq_spec c
  rw [extractNationalities, h1, h2]

/-- C7 counterexample: nationality extraction is not idempotent in
general — `["France"]` maps to `["French"]`, which in turn matches no
table key and maps to `[]`. -/
theorem extractNationalities_not_idempotent :
    extractNationalities (extractNationalities ["France"]) ≠
      extractNationalities ["France"] := by decide

/-- C7 (amended): the result set of `extractNationalities` is independent
of the order of the input countries (permuting the input permutes the
duplicate-free result); every permutation of
`["USA", "United States", "America"]` yields exactly `["American"]`; and
re-applying the extraction to that particular output yields the same set.
(Idempotence does not hold in general, see the counterexample.) -/
theorem extractNationalities_order_independent :
    (∀ l₁ l₂ : List String, List.Perm l₁ l₂ →
      List.Perm (extractNationalities l₁) (extractNationalities l₂)) ∧
    (∀ l : List String, List.Perm l ["USA", "United States", "America"] →
      extractNationalities l = ["American"]) ∧
    extractNationalities ["American"] = ["American"] := by
  have hperm : ∀ l₁ l₂ : List String, List.Perm l₁ l₂ →
      List.Perm (extractNationalities l₁) (extractNationalities l₂) := by
    intro l₁ l₂ h
    rw [List.perm_ext_iff_of_nodup (extractNationalities_nodup l₁)
      (extractNationalities_nodup l₂)]
    intro a
    rw [mem_extractNationalities, mem_extractNationalities]
    constructor
    · rintro ⟨c, hc, hm⟩
      exact ⟨c, h.mem_iff.mp hc, hm⟩
    · rintro ⟨c, hc, hm⟩
      exact ⟨c, h.mem_iff.mpr hc, hm⟩
  refine ⟨hperm, ?_, by decide⟩
  intro l hl
  have hp := hperm l _ hl
  have hc : extractNationalities ["USA", "United States", "America"] =
      ["American"] := by decide
  rw [hc] at hp
  exact List.perm_singleton.mp hp

/-- C7 witness (for the hypothesis-bearing amended claim): applying the
order-independence part at a concrete permuted pair. -/
theorem extractNationalities_order_independent_witness :
    List.Perm (extractNationalities ["France", "Germany"])
      (extractNationalities ["Germany", "France"]) :=
  extractNationalities_order_independent.1 ["France", "Germany"]
    ["Germany", "France"] (by decide)

/-- C10: any entry whose trimmed form is empty (empty or whitespace-only
strings) makes `extractNationalities` emit `"American"`: the empty string
fails both exact lookups, and in the substring fallback the very first
table key `united states` contains the empty string, so the first entry's
nationality is added instead of the entry being dropped. -/
theorem blank_country_yields_american :
    ∀ (countries : List String) (s : String), s ∈ countries →
      jsTrim s = "" → "American" ∈ extractNationalities countries := by
  intro cs s hs htrim
  rw [mem_extractNationalities]
  refine ⟨s, hs, ?_⟩
  simp only [matchCountry]
  rw [htrim]
  decide

/-- C10 witness: the claim applied to the concrete list `["", "France"]`. -/
theorem blank_country_yields_american_witness :
    "American" ∈ extractNationalities ["", "France"] :=
  blank_country_yields_american ["", "France"] "" (by decide) (by decide)

/-- C9: `detectLanguages` agrees with the specification's pipeline (keep
the languages whose match count strictly exceeds the threshold 5, sort
descending by count, return at most the top 3 capitalized — the code's
extra positive-score prefilter and its filter-after-sort order are
immaterial); it returns at most 3 languages; it defaults to `["English"]`
whenever no language's count exceeds the threshold; and the all-numeric
input `"123 456 789"` yields exactly `["English"]`. -/
theorem detectLanguages_matches_spec :
    ∀ s : String,
      detectLanguages s = detectLanguagesSpec s ∧
      (detectLanguages s).length ≤ 3 ∧
      ((∀ p ∈ languageScoresAll ((jsLower s).toList), p.2 ≤ 5) →
        detectLanguages s = ["English"]) ∧
      detectLanguages "123 456 789" = ["English"] := by
  intro s
  exact ⟨detectLanguages_eq_spec s, detectLanguages_length_le s,
    fun h => detectLanguages_default h, by decide⟩

/-- C9 witness: the threshold clause applied at the concrete input `"987"`,
whose scores are all zero. -/
theorem detectLanguages_matches_spec_witness :
    detectLanguages "987" = ["English"] :=
  (detectLanguages_matches_spec "987").2.2.1 (by decide)

/-! ## Claim theorems: the client-side normalizer -/

lemma detectLanguages_empty : detectLanguages "" = ["English"] := by decide

/-- C8: `mapApiResponseToPRD` resolves `languages` in the specified order:
the `languages` key when it is an array, else the `language` key when it
is an array, else heuristic detection over the supplied original text,
else the default `["English"]`.  With both keys non-arrays the result for
a supplied original text `t` is `detectLanguages t` for *every* `t`
(including the empty string, where the code's truthiness guard routes to
the default, which coincides with `detectLanguages ""`), and never an
error. -/
theorem language_resolution_order :
    ∀ (r : ApiResponse) (ot : Option String),
      (∀ l, asArray r.languages = some l →
        (mapApiResponseToPRD r ot).languages = l) ∧
      (asArray r.languages = none → ∀ l, asArray r.language = some l →
        (mapApiResponseToPRD r ot).languages = l) ∧
      (asArray r.languages = none → asArray r.language = none → ∀ t,
        (mapApiResponseToPRD r (some t)).languages = detectLanguages t) ∧
      (asArray r.languages = none → asArray r.language = none →
        (mapApiResponseToPRD r none).languages = ["English"]) := by
  intro r ot
  refine ⟨?_, ?_, ?_, ?_⟩
  · intro l hl
    simp [mapApiResponseToPRD, hl]
  · intro h1 l hl
    simp [mapApiResponseToPRD, h1, hl]
  · intro h1 h2 t
    simp only [mapApiResponseToPRD, h1, h2]
    by_cases ht : t = ""
    · subst ht
      simp [detectLanguages_empty]
    · simp [ht]
  · intro h1 h2
    simp [mapApiResponseToPRD, h1, h2]

/-- C8 witness: a response with every field missing and original text
`"hello"` resolves `languages` by heuristic detection. -/
theorem language_resolution_order_witness :
    (mapApiResponseToPRD emptyApiResponse (some "hello")).languages =
      detectLanguages "hello" :=
  (language_resolution_order emptyApiResponse none).2.2.1 rfl rfl "hello"

/-! ## Helper lemmas: the backend route -/

lemma parseAnalyzeBody_core_env (env env' : AnalyzeEnv) (req : AnalyzeRequest) :
    (parseAnalyzeBody env req).core = (parseAnalyzeBody env' req).core := by
  rcases req with ⟨a, m, tf, f, jt⟩
  cases m
  · rfl
  · rcases f with _ | file
    · rfl
    · simp only [parseAnalyzeBody]
      by_cases h1 : jsEndsWith file.name ".txt" = true
      · simp only [h1, if_true]
        split <;> rfl
      · simp only [h1, if_false, Bool.false_eq_true]
        by_cases h2 : jsEndsWith file.name ".docx" = true
        · simp only [h2, if_true]
          split <;> rfl
        · simp only [h2, if_false, Bool.false_eq_true]

lemma parseAnalyzeBody_url_none (env : AnalyzeEnv) (req : AnalyzeRequest)
    (h : env.s3Ok = false) : (parseAnalyzeBody env req).url = none := by
  rcases req with ⟨a, m, tf, f, jt⟩
  cases m
  · simp only [parseAnalyzeBody, Bool.false_eq_true, if_false]
    split <;> rfl
  · rcases f with _ | file
    · simp only [parseAnalyzeBody, eq_self_iff_true, if_true]
      split <;> rfl
    · simp only [parseAnalyzeBody, h]
      by_cases h1 : jsEndsWith file.name ".txt" = true
      · simp only [h1, if_true, Bool.false_eq_true, if_false]
        split <;> rfl
      · simp only [h1, Bool.false_eq_true, if_false]
        by_cases h2 : jsEndsWith file.name ".docx" = true
        · simp only [h2, if_true, Bool.false_eq_true, if_false]
          split <;> rfl
        · simp only [h2, Bool.false_eq_true, if_false]
          rfl

lemma analyzeRoute_response_core (env : AnalyzeEnv) (req : AnalyzeRequest) :
    (analyzeRoute env req).response =
      (match (parseAnalyzeBody env req).core.1 with
       | Sum.inl r => r
       | Sum.inr t =>
         match env.provider t with
         | none => HttpResponse.serverError "Failed to analyze article"
         | some o => HttpResponse.okJson o) := by
  cases h : parseAnalyzeBody env req with
  | fail r u e => simp [analyzeRoute, ParsedBody.core, h]
  | done t u e =>
    cases hp : env.provider t <;> simp [analyzeRoute, ParsedBody.core, h, hp]

lemma analyzeRoute_providerCalled_core (env : AnalyzeEnv) (req : AnalyzeRequest) :
    (analyzeRoute env req).providerCalled =
      (parseAnalyzeBody env req).core.1.isRight := by
  cases h : parseAnalyzeBody env req with
  | fail r u e => simp [analyzeRoute, ParsedBody.core, h]
  | done t u e =>
    cases hp : env.provider t <;> simp [analyzeRoute, ParsedBody.core, h, hp]

lemma analyzeRoute_extraction_core (env : AnalyzeEnv) (req : AnalyzeRequest) :
    (analyzeRoute env req).extractionPerformed =
      (parseAnalyzeBody env req).core.2 := by
  cases h : parseAnalyzeBody env req with
  | fail r u e => simp [analyzeRoute, ParsedBody.core, h]
  | done t u e =>
    cases hp : env.provider t <;> simp [analyzeRoute, ParsedBody.core, h, hp]

lemma analyzeRoute_dbInsert_core (env : AnalyzeEnv) (req : AnalyzeRequest) :
    (analyzeRoute env req).dbInsertAttempted =
      (match (parseAnalyzeBody env req).core.1 with
       | Sum.inl _ => false
       | Sum.inr t => (env.provider t).isSome) := by
  cases h : parseAnalyzeBody env req with
  | fail r u e => simp [analyzeRoute, ParsedBody.core, h]
  | done t u e =>
    cases hp : env.provider t <;> simp [analyzeRoute, ParsedBody.core, h, hp]

lemma analyzeRoute_url (env : AnalyzeEnv) (req : AnalyzeRequest) :
    (analyzeRoute env req).uploadedFileUrl = (parseAnalyzeBody env req).url := by
  cases h : parseAnalyzeBody env req with
  | fail r u e => simp [analyzeRoute, ParsedBody.url, h]
  | done t u e =>
    cases hp : env.provider t <;> simp [analyzeRoute, ParsedBody.url, h, hp]

/-! ## Claim theorems: the backend route -/

/-- C1: the `/analyze` route is *not* gated by the Auth Gate.  The handler
ignores the Authorization header entirely (first conjunct), and a request
with no Authorization header and valid text reaches the provider and
succeeds (second and third conjuncts), contradicting the claim that such
requests are rejected with a 401 before extraction or the provider call.
The `auth` middleware itself does implement the claimed behaviour — an
expired session whose token hash matches a stored row is rejected (last
conjunct) — but index.ts registers the route without it. -/
theorem analyze_not_gated_by_auth :
    (∀ (env : AnalyzeEnv) (req : AnalyzeRequest) (a : Option String),
      analyzeRoute env { req with authorization := a } = analyzeRoute env req) ∧
    (analyzeRoute envDemo reqJsonHello).providerCalled = true ∧
    (analyzeRoute envDemo reqJsonHello).response = HttpResponse.okJson objDemo ∧
    auth authEnvExpired (some "Bearer tok") = AuthOutcome.sessionExpired := by
  refine ⟨?_, rfl, rfl, rfl⟩
  intro env req a
  cases req
  rfl

/-- C2 counterexample: a successful `/analyze` whose provider omitted the
optional `language` field returns that object unchanged — the `language`
key is absent from the response (`none`), not an empty array, refuting
the invariant that all five fields are always present as arrays. -/
theorem analyze_response_language_absent :
    (analyzeRoute envNoLang reqJsonHello).response =
      HttpResponse.okJson objNoLang ∧
    objNoLang.language = none := ⟨rfl, rfl⟩

/-- C2 (amended): every successful `/analyze` response is exactly the
provider's schema-validated object: the four required fields are present
as arrays (by the schema), and the optional `language` field is passed
through as-is — a provider omitting it is tolerated (the request still
succeeds) but the response then omits the key rather than substituting an
empty array. -/
theorem analyze_success_returns_provider_object :
    ∀ (env : AnalyzeEnv) (req : AnalyzeRequest) (t : String)
      (url : Option String) (ext : Bool) (o : AnalysisObject),
      parseAnalyzeBody env req = ParsedBody.done t url ext →
      env.provider t = some o →
      (analyzeRoute env req).response = HttpResponse.okJson o := by
  intro env req t url ext o hp ho
  simp [analyzeRoute, hp, ho]

/-- C2 witness: the pass-through theorem applied to the concrete request
whose provider omits `language`. -/
theorem analyze_success_returns_provider_object_witness :
    (analyzeRoute envNoLang reqJsonHello).response =
      HttpResponse.okJson objNoLang :=
  analyze_success_returns_provider_object envNoLang reqJsonHello "hello"
    none false objNoLang rfl rfl

/-- C3 counterexample: the backend route enforces no size boundary — an
authenticated multipart `/analyze` request carrying a 20MB `.txt` file is
not rejected: extraction runs and the provider is called. -/
theorem analyze_backend_accepts_20mb_file :
    (analyzeRoute envDemo req20MB).providerCalled = true ∧
    (analyzeRoute envDemo req20MB).extractionPerformed = true ∧
    (analyzeRoute envDemo req20MB).response = HttpResponse.okJson objDemo :=
  ⟨rfl, rfl, rfl⟩

/-- C3 (amended): the file-size boundary exists only client-side.
`validateFile` rejects every file above the 10MB `MAX_FILE_SIZE`, and the
file picker (`handleFileSelect`) leaves the UI state unchanged for such a
file, so it never becomes the selected file and the UI flow never sends
it — in particular no provider call results from an oversized file in
that flow.  The backend `/analyze` route itself performs no size check
(see the counterexample). -/
theorem oversized_file_rejected_client_side :
    ∀ f : UploadedFile, f.size > MAX_FILE_SIZE →
      (validateFile f).isValid = false ∧
      ∀ st : UIState, handleFileSelect st (some f) = st := by
  intro f hf
  have hv : (validateFile f).isValid = false := by
    simp [validateFile, hf]
  refine ⟨hv, fun st => ?_⟩
  simp [handleFileSelect, hv]

/-- C3 witness: the amended claim applied to the concrete 20MB file. -/
theorem oversized_file_rejected_client_side_witness :
    (validateFile file20MB).isValid = false ∧
    handleFileSelect uiStateDemo (some file20MB) = uiStateDemo := by
  have h := oversized_file_rejected_client_side file20MB (by decide)
  exact ⟨h.1, h.2 uiStateDemo⟩

lemma intercalate_singleton (s : String) : String.intercalate "\n\n" [s] = s := rfl

/-- C4: in a multipart `/analyze` request, a file whose extension is
neither `.txt` nor `.docx` yields the 400 `Unsupported file type` response
with no extraction, no S3 upload, no provider call and no insert; a `.txt`
file's UTF-8 decoding and a `.docx` file's converter output (each non-empty,
with no accompanying text field) become the article text sent to the
provider, whose object is returned. -/
theorem unsupported_extension_rejected_before_provider :
    ∀ (env : AnalyzeEnv) (req : AnalyzeRequest) (f : UploadedFile),
      req.multipart = true → req.file = some f →
      ((jsEndsWith f.name ".txt" = false → jsEndsWith f.name ".docx" = false →
        analyzeRoute env req =
          { response := HttpResponse.badRequest
              "Unsupported file type. Only .txt and .docx are accepted.",
            providerCalled := false, extractionPerformed := false,
            uploadedFileUrl := none, dbInsertAttempted := false,
            dbErrorLogged := false }) ∧
      (jsEndsWith f.name ".txt" = true → req.textField = none →
        f.utf8Text ≠ "" →
        (analyzeRoute env req).providerCalled = true ∧
        ∀ o, env.provider f.utf8Text = some o →
          (analyzeRoute env req).response = HttpResponse.okJson o) ∧
      (jsEndsWith f.name ".txt" = false → jsEndsWith f.name ".docx" = true →
        req.textField = none → f.docxText ≠ "" →
        (analyzeRoute env req).providerCalled = true ∧
        ∀ o, env.provider f.docxText = some o →
          (analyzeRoute env req).response = HttpResponse.okJson o)) := by
  intro env req f hm hf
  refine ⟨?_, ?_, ?_⟩
  · intro h1 h2
    have hp : parseAnalyzeBody env req =
        ParsedBody.fail (HttpResponse.badRequest
          "Unsupported file type. Only .txt and .docx are accepted.")
          none false := by
      simp [parseAnalyzeBody, hm, hf, h1, h2]
    simp [analyzeRoute, hp]
  · intro h1 htf hne
    constructor
    · rw [analyzeRoute_providerCalled_core]
      simp [parseAnalyzeBody, hm, hf, h1, htf, hne, ParsedBody.core,
        intercalate_singleton]
    · intro o ho
      rw [analyzeRoute_response_core]
      simp [parseAnalyzeBody, hm, hf, h1, htf, hne, ParsedBody.core,
        intercalate_singleton, ho]
  · intro h1 h2 htf hne
    constructor
    · rw [analyzeRoute_providerCalled_core]
      simp [parseAnalyzeBody, hm, hf, h1, h2, htf, hne, ParsedBody.core,
        intercalate_singleton]
    · intro o ho
      rw [analyzeRoute_response_core]
      simp [parseAnalyzeBody, hm, hf, h1, h2, htf, hne, ParsedBody.core,
        intercalate_singleton, ho]

/-- C4 witness: the unsupported branch applied to a concrete PDF upload. -/
theorem unsupported_extension_rejected_before_provider_witness :
    analyzeRoute envDemo reqPdf =
      { response := HttpResponse.badRequest
          "Unsupported file type. Only .txt and .docx are accepted.",
        providerCalled := false, extractionPerformed := false,
        uploadedFileUrl := none, dbInsertAttempted := false,
        dbErrorLogged := false } :=
  (unsupported_extension_rejected_before_provider envDemo reqPdf filePdf
    rfl rfl).1 (by decide) (by decide)

/-- C5: storage is best-effort and never affects the analysis outcome —
the response, whether the provider was called, whether extraction ran and
whether the insert was attempted are all independent of S3 and database
availability, and an S3 failure only omits the stored file reference
(`uploadedFileUrl = none`).  In particular a successful analysis object is
returned unchanged under any storage outage. -/
theorem storage_failures_do_not_affect_response :
    ∀ (env : AnalyzeEnv) (req : AnalyzeRequest) (s3 db : Bool),
      ((analyzeRoute { env with s3Ok := s3, dbOk := db } req).response =
        (analyzeRoute env req).response) ∧
      ((analyzeRoute { env with s3Ok := s3, dbOk := db } req).providerCalled =
        (analyzeRoute env req).providerCalled) ∧
      ((analyzeRoute { env with s3Ok := s3, dbOk := db } req).extractionPerformed =
        (analyzeRoute env req).extractionPerformed) ∧
      ((analyzeRoute { env with s3Ok := s3, dbOk := db } req).dbInsertAttempted =
        (analyzeRoute env req).dbInsertAttempted) ∧
      (analyzeRoute { env with s3Ok := false, dbOk := db } req).uploadedFileUrl
        = none := by
  intro env req s3 db
  have hcore := parseAnalyzeBody_core_env { env with s3Ok := s3, dbOk := db } env req
  refine ⟨?_, ?_, ?_, ?_, ?_⟩
  · rw [analyzeRoute_response_core, analyzeRoute_response_core, hcore]
  · rw [analyzeRoute_providerCalled_core, analyzeRoute_providerCalled_core, hcore]
  · rw [analyzeRoute_extraction_core, analyzeRoute_extraction_core, hcore]
  · rw [analyzeRoute_dbInsert_core, analyzeRoute_dbInsert_core, hcore]
  · rw [analyzeRoute_url]
    exact parseAnalyzeBody_url_none _ _ rfl
